import Mathlib

/-!
Formal model of the consensus core of the chia-blockchain snapshot:
`src/blockchain.py`, `src/mempool.py` and `src/types/pool.py`.

The Python code is shallowly embedded: Python dicts become association
lists (insertion ordered, as in CPython), `SortedDict` becomes a
key-sorted association list, machine integers (`uint32`, `uint64`)
become `Nat` (none of the modelled computations overflows 64 bits on the
inputs considered), the double-precision arithmetic of `validate_block`'s
coinbase check is modelled by explicit round-to-nearest-even at 53
significant bits over `ℚ` (Python compares the resulting float against
the integer amount exactly), and `while` loops become fuel-indexed
recursion with fuel large enough to reproduce the loop exactly.

Classes that the snapshot references but whose modules are not part of
the source tree (`SmallHeaderBlock`, `Unspent`, `Coin`, `MempoolItem`,
`SpendBundle`) are modelled from the specification document, field for
field; each such definition is marked `Modelled from the spec:`.
-/

/-- `ReceiveBlockResult` from blockchain.py lines 35-48. -/
inductive ReceiveBlockResult where
  | ADDED_TO_HEAD
  | ADDED_AS_ORPHAN
  | INVALID_BLOCK
  | ALREADY_HAVE_BLOCK
  | DISCONNECTED_BLOCK
deriving DecidableEq, Repr

/-- The members of the `Err` taxonomy (util/ConsensusError, not in the
source tree; the constructor names are the ones used by blockchain.py
and mempool.py). -/
inductive Err where
  | UNKNOWN
  | BLOCK_COST_EXCEEDS_MAX
  | EXTENDS_UNKNOWN_BLOCK
  | COIN_AMOUNT_EXCEEDS_MAXIMUM
  | DUPLICATE_OUTPUT
  | DOUBLE_SPEND
  | UNKNOWN_UNSPENT
  | COINBASE_NOT_YET_SPENDABLE
  | MINTING_COIN
  | BAD_COINBASE_REWARD
  | WRONG_PUZZLE_HASH
  | BAD_AGGREGATE_SIGNATURE
  | MEMPOOL_CONFLICT
  | INVALID_FEE_NO_FEE
  | INVALID_FEE_LOW_FEE
deriving DecidableEq, Repr

/-- Modelled from the spec: a `Coin` has a 32-byte parent id, a 32-byte
puzzle hash and a 64-bit amount (types/hashable/Coin.py is not in the
source tree). Byte strings are modelled as naturals. -/
structure Coin where
  parent_coin_info : Nat
  puzzle_hash : Nat
  amount : Nat
deriving DecidableEq, Repr

/-- Modelled from the spec: `name = H(parent_coin_id ‖ puzzle_hash ‖
amount)`; the hash is modelled by the injective pairing function, which
keeps exactly the collision-freeness the code relies on. -/
def Coin.name (c : Coin) : Nat :=
  Nat.pair c.parent_coin_info (Nat.pair c.puzzle_hash c.amount)

/-- Modelled from the spec: an unspent record is `{coin,
confirmed_index, spent_index, spent_flag, coinbase_flag}`
(types/hashable/Unspent.py is not in the source tree).  blockchain.py
line 1063 constructs one with five positional arguments
`Unspent(coin, confirmed, spent_index, spent, coinbase)`; the flags are
naturals because the code compares them with `== 1`. -/
structure Unspent where
  coin : Coin
  confirmed_block_index : Nat
  spent_block_index : Nat
  spent : Nat
  coinbase : Nat
deriving DecidableEq, Repr

/-- `Unspent.name` delegates to the coin name. -/
def Unspent.name (u : Unspent) : Nat := u.coin.name

/-- Modelled from the spec: the compact in-memory header form carries
`{height, weight, total_iters, prev_header_hash, header_hash,
timestamp, challenge_digest, proof_of_space_hash}`
(types/header_block.py is not in the source tree). -/
structure SmallHeaderBlock where
  height : Nat
  weight : Nat
  total_iters : Nat
  prev_header_hash : Nat
  header_hash : Nat
  timestamp : Nat
  challenge_digest : Nat
  proof_of_space_hash : Nat
deriving DecidableEq, Repr

/- ## Association lists: the model of Python dicts.
CPython dicts preserve insertion order: updating an existing key keeps
its position, a fresh key is appended. -/

/-- Dict lookup. -/
def lookupA {α : Type} (l : List (Nat × α)) (k : Nat) : Option α :=
  (l.find? (fun p => p.1 == k)).map Prod.snd

/-- Dict assignment `d[k] = v` with CPython ordering semantics. -/
def insertA {α : Type} (l : List (Nat × α)) (k : Nat) (v : α) : List (Nat × α) :=
  if (lookupA l k).isSome then
    l.map (fun p => if p.1 == k then (k, v) else p)
  else
    l ++ [(k, v)]

/-- Dict deletion `del d[k]` (a no-op when the key is absent; the call
sites modelled here only delete keys they have just looked up). -/
def eraseA {α : Type} (l : List (Nat × α)) (k : Nat) : List (Nat × α) :=
  l.filter (fun p => !(p.1 == k))

/-- Dict membership `k in d`. -/
def memA {α : Type} (l : List (Nat × α)) (k : Nat) : Bool :=
  (lookupA l k).isSome

/- ## Retargeting (blockchain.py, `get_next_difficulty` / `get_next_ips`). -/

/-- The clamp applied by `get_next_difficulty` at a retarget boundary,
blockchain.py lines 331-341:

    if new_difficulty >= Tc:
        return min(new_difficulty, uint64(DIFFICULTY_FACTOR * Tc))
    else:
        return max([uint64(1), new_difficulty, uint64(Tc // DIFFICULTY_FACTOR)])

`Tc = get_next_difficulty(prev)` is the difficulty in force before the
change and `new_difficulty` the windowed quotient of lines 322-329. -/
def get_next_difficulty_clamp (DIFFICULTY_FACTOR Tc new_difficulty : Nat) : Nat :=
  if Tc ≤ new_difficulty then
    min new_difficulty (DIFFICULTY_FACTOR * Tc)
  else
    max 1 (max new_difficulty (Tc / DIFFICULTY_FACTOR))

/-- The retarget branch of `get_next_ips`, blockchain.py lines 434-442:

    new_ips = uint64((iters2 - iters1) // (timestamp2 - timestamp1))
    if new_ips >= prev_ips:
        return min(new_ips, uint64(IPS_FACTOR * new_ips))
    else:
        return max([uint64(1), new_ips, uint64(prev_ips // IPS_FACTOR)])

Note the upper branch multiplies `IPS_FACTOR` by `new_ips`, not by
`prev_ips`.  Timestamps and iteration counts are naturals; on the
domain the code runs on (`iters2 ≥ iters1`, `timestamp2 > timestamp1`)
Python's floor division agrees with `Nat` division. -/
def get_next_ips_retarget
    (IPS_FACTOR prev_ips iters1 iters2 timestamp1 timestamp2 : Nat) : Nat :=
  let new_ips := (iters2 - iters1) / (timestamp2 - timestamp1)
  if prev_ips ≤ new_ips then
    min new_ips (IPS_FACTOR * new_ips)
  else
    max 1 (max new_ips (prev_ips / IPS_FACTOR))

/- ## Coinbase arithmetic (blockchain.py, `validate_block` lines 692-695).

Line 693 computes `(coinbase_reward / 8) * 7` in IEEE-754 binary64:
`coinbase_reward / 8` is the correctly rounded double of the exact
quotient, which equals (round-to-53-bits of the integer) divided by 8 —
division by 8 only shifts the exponent — and the product with 7 rounds
once more.  Both roundings are round-to-nearest, ties-to-even, on the
53-bit significand; no value in range is subnormal or overflows. -/

/-- `⌊log2 n⌋` by fuel-indexed halving; exact for `n < 2 ^ fuel`.  The
values rounded in the coinbase check fit well below `2 ^ 96`. -/
def nat_log2_fuel : Nat → Nat → Nat
  | 0, _ => 0
  | fuel + 1, n => if 2 ≤ n then nat_log2_fuel fuel (n / 2) + 1 else 0

/-- Round `n / d` (with `d > 0`) to the nearest integer, ties to even. -/
def rne_div (n d : Nat) : Nat :=
  let q := n / d
  let r := n % d
  if 2 * r < d then q
  else if d < 2 * r then q + 1
  else if q % 2 = 0 then q else q + 1

/-- Round the natural `n` to 53 significant bits, nearest-even: the
significand rounding of the IEEE-754 binary64 nearest `n`. -/
def round53_nat (n : Nat) : Nat :=
  let t := nat_log2_fuel 96 n
  if t ≤ 52 then n
  else rne_div n (2 ^ (t - 52)) * 2 ^ (t - 52)

/-- The binary64 value of the dyadic `n / 2 ^ k`, as an exact rational:
the exponent shift `2 ^ k` is exact, so only the 53-bit significand
rounding of `n` matters. -/
def dyadic_fl53 (n k : Nat) : ℚ :=
  (round53_nat n : ℚ) / 2 ^ k

/-- blockchain.py lines 692-694:

    coinbase_reward = calculate_block_reward(block.height)
    if (coinbase_reward / 8) * 7 != block.body.coinbase.amount:
        return False

The float on the left is `round53(7 * round53(reward)) / 8` (see the
section comment); Python compares it against the integer amount exactly.
Returns whether the check passes. -/
def coinbase_amount_check_float (coinbase_reward coinbase_amount : Nat) : Bool :=
  decide (dyadic_fl53 (7 * round53_nat coinbase_reward) 3 = (coinbase_amount : ℚ))

/-- blockchain.py line 695: `fee_base = uint64(int(coinbase_reward / 8))`;
the float `coinbase_reward / 8` is `round53(reward) / 8` exactly, and
`int` truncates the nonnegative value, which is the floor. -/
def fee_base_of_reward_float (coinbase_reward : Nat) : Nat :=
  round53_nat coinbase_reward / 8

/- ## Fork choice (blockchain.py, `_reconsider_heads` and friends). -/

/-- The admission test of `_reconsider_heads`, blockchain.py line 999:
`len(self.tips) == 0 or block.weight > min([b.weight for b in self.tips])`. -/
def new_tip_qualifies (tips : List SmallHeaderBlock) (b : SmallHeaderBlock) : Bool :=
  match (tips.map SmallHeaderBlock.weight).min? with
  | none => true
  | some m => decide (m < b.weight)

/-- Descending-weight order used by `self.tips.sort(key=lambda b: b.weight,
reverse=True)` (blockchain.py line 1002). -/
def weight_ge (a b : SmallHeaderBlock) : Prop := b.weight ≤ a.weight

instance : DecidableRel weight_ge := fun a b => Nat.decLe b.weight a.weight

instance : IsTotal SmallHeaderBlock weight_ge :=
  ⟨fun a b => le_total b.weight a.weight⟩

instance : IsTrans SmallHeaderBlock weight_ge :=
  ⟨fun _ _ _ hab hbc => le_trans hbc hab⟩

/-- `self.tips.sort(key=lambda b: b.weight, reverse=True)`.  CPython's
sort is stable, and so is insertion sort with this order. -/
def sort_tips_desc (tips : List SmallHeaderBlock) : List SmallHeaderBlock :=
  List.insertionSort weight_ge tips

/-- The eviction loop of `_reconsider_heads`, blockchain.py lines
1001-1004:

    while len(self.tips) > self.constants["NUMBER_OF_HEADS"]:
        self.tips.sort(key=lambda b: b.weight, reverse=True)
        removed = self.tips.pop()

`removed` keeps only the last popped tip, exactly as the Python variable
does.  The loop is fuel-indexed; each pass shortens the list by one, so
fuel `tips.length` reproduces the loop exactly. -/
def tips_pop_loop (K : Nat) :
    Nat → List SmallHeaderBlock → Option SmallHeaderBlock →
    List SmallHeaderBlock × Option SmallHeaderBlock
  | 0, tips, removed => (tips, removed)
  | fuel + 1, tips, removed =>
    if K < tips.length then
      let sorted := sort_tips_desc tips
      tips_pop_loop K fuel sorted.dropLast sorted.getLast?
    else
      (tips, removed)

/-- The tips part of `_reconsider_heads` (blockchain.py lines 991-1007):
returns `(added, new_tips, removed)`. -/
def reconsider_heads_tips (K : Nat) (tips : List SmallHeaderBlock)
    (b : SmallHeaderBlock) : Bool × List SmallHeaderBlock × Option SmallHeaderBlock :=
  if new_tip_qualifies tips b then
    let appended := tips ++ [b]
    (true, tips_pop_loop K appended.length appended none)
  else
    (false, tips, none)

/-- The chain state named by the spec: `headers`, `height_to_hash`,
`tips` and `lca_block` (blockchain.py lines 51-61; `lca_block` is unset
until genesis is processed, hence the `Option`). -/
structure ChainState where
  headers : List (Nat × SmallHeaderBlock)
  height_to_hash : List (Nat × Nat)
  tips : List SmallHeaderBlock
  lca_block : Option SmallHeaderBlock
deriving DecidableEq, Repr

/-- `_reconsider_heights` (blockchain.py lines 792-816): rewrites the
mainline mapping when the LCA moves from `curr_old` to `curr_new`.
Missing `headers` entries (a `KeyError` in the source) stop the walk;
the loop is fuel-indexed. -/
def reconsider_heights_loop :
    Nat → Option SmallHeaderBlock → SmallHeaderBlock → ChainState → ChainState
  | 0, _, _, s => s
  | fuel + 1, none, curr_new, s =>
    let s' := { s with
      height_to_hash := insertA s.height_to_hash curr_new.height curr_new.header_hash,
      headers := insertA s.headers curr_new.header_hash curr_new }
    if curr_new.height == 0 then s'
    else
      match lookupA s'.headers curr_new.prev_header_hash with
      | none => s'
      | some n2 => reconsider_heights_loop fuel none n2 s'
  | fuel + 1, some o, curr_new, s =>
    if o.height < curr_new.height then
      let s' := { s with
        height_to_hash := insertA s.height_to_hash curr_new.height curr_new.header_hash,
        headers := insertA s.headers curr_new.header_hash curr_new }
      if curr_new.height == 0 then s'
      else
        match lookupA s'.headers curr_new.prev_header_hash with
        | none => s'
        | some n2 => reconsider_heights_loop fuel (some o) n2 s'
    else if curr_new.height < o.height then
      let s' := { s with height_to_hash := eraseA s.height_to_hash o.height }
      match lookupA s'.headers o.prev_header_hash with
      | none => s'
      | some o2 => reconsider_heights_loop fuel (some o2) curr_new s'
    else
      if curr_new.header_hash == o.header_hash then s
      else
        let s' := { s with
          height_to_hash := insertA s.height_to_hash curr_new.height curr_new.header_hash }
        match lookupA s'.headers curr_new.prev_header_hash,
              lookupA s'.headers o.prev_header_hash with
        | some n2, some o2 => reconsider_heights_loop fuel (some o2) n2 s'
        | _, _ => s'

/-- The LCA search of `_reconsider_lca` (blockchain.py lines 823-832):
repeatedly step the highest tip back to its parent until all walkers
agree.  `heights.index(max(heights))` is the first index attaining the
maximum.  Fuel exhaustion or a missing header returns `none`. -/
def lca_walk (headers : List (Nat × SmallHeaderBlock)) :
    Nat → List SmallHeaderBlock → Option SmallHeaderBlock
  | _, [] => none
  | 0, _ :: _ => none
  | fuel + 1, c0 :: ctl =>
    let cur := c0 :: ctl
    if cur.all (fun b => b.header_hash == c0.header_hash) then some c0
    else
      let heights := cur.map SmallHeaderBlock.height
      let m := heights.foldr max 0
      let i := heights.findIdx (fun h => h == m)
      match cur[i]? with
      | none => none
      | some ci =>
        match lookupA headers ci.prev_header_hash with
        | none => none
        | some p => lca_walk headers fuel (cur.set i p)

/-- The chain-state part of `_reconsider_lca` (blockchain.py lines
818-837).  The unspent-store and diff-store calls of lines 839-908 are
external I/O and do not touch the four chain-state fields. -/
def reconsider_lca_state (fuel : Nat) (s : ChainState) (genesis : Bool) : ChainState :=
  match lca_walk s.headers fuel s.tips with
  | none => s
  | some new_lca =>
    let old : Option SmallHeaderBlock := if genesis then none else s.lca_block
    let s' := reconsider_heights_loop fuel old new_lca s
    { s' with lca_block := some new_lca }

/-- `_reconsider_heads` over the full chain state (blockchain.py lines
991-1007): `_reconsider_lca` runs only when the block entered the tips. -/
def reconsider_heads (K fuel : Nat) (s : ChainState) (b : SmallHeaderBlock)
    (genesis : Bool) : Bool × ChainState × Option SmallHeaderBlock :=
  let r := reconsider_heads_tips K s.tips b
  if r.1 then
    (true, reconsider_lca_state fuel { s with tips := r.2.1 } genesis, r.2.2)
  else
    (false, s, none)

/-- `receive_block` (blockchain.py lines 444-480) over the chain state.
`validate` abstracts `validate_block`, which only reads the chain state
and the stores (its internals are modelled separately); the
`store.add_block` call persists to the external block store and touches
none of the four chain-state fields. -/
def receive_block (K fuel : Nat)
    (validate : ChainState → SmallHeaderBlock → Bool → Bool)
    (s : ChainState) (b : SmallHeaderBlock) : ReceiveBlockResult × ChainState :=
  let genesis : Bool := b.height == 0 && s.tips.isEmpty
  if memA s.headers b.header_hash then
    (.ALREADY_HAVE_BLOCK, s)
  else if !(memA s.headers b.prev_header_hash) && !genesis then
    (.DISCONNECTED_BLOCK, s)
  else if !(validate s b genesis) then
    (.INVALID_BLOCK, s)
  else
    let s1 := { s with headers := insertA s.headers b.header_hash b }
    let r := reconsider_heads K fuel s1 b genesis
    if r.1 then (.ADDED_TO_HEAD, r.2.1) else (.ADDED_AS_ORPHAN, r.2.1)

/- ## Mempool data model (mempool.py, types/pool.py). -/

/-- Modelled from the spec: a `MempoolItem` carries `{spend_bundle, fee,
cost, fee_per_cost}` (types/mempool_item.py is not in the source tree);
`name` is the spend bundle's name and the bundle itself is represented
by its addition/removal coin lists (the fields mempool.py reads).
`fee_per_cost = fees / cost` is Python float division, modelled
exactly over `ℚ`; the code only ever compares stored values. -/
structure MempoolItem where
  name : Nat
  fee_per_cost : ℚ
  fee : Nat
  cost : Nat
  bundle_additions : List Coin
  bundle_removals : List Coin
deriving DecidableEq, Repr

/-- Rational-keyed dict lookup (for `SortedDict` keyed by fee density). -/
def lookupQ {α : Type} (l : List (ℚ × α)) (k : ℚ) : Option α :=
  (l.find? (fun p => decide (p.1 = k))).map Prod.snd

/-- Rational-keyed dict deletion. -/
def eraseQ {α : Type} (l : List (ℚ × α)) (k : ℚ) : List (ℚ × α) :=
  l.filter (fun p => !(decide (p.1 = k)))

/-- `SortedDict` assignment: replace in place or insert at the sorted
position (keys ascending, as `sortedcontainers.SortedDict` iterates). -/
def insertSortedQ {α : Type} : List (ℚ × α) → ℚ → α → List (ℚ × α)
  | [], k, v => [(k, v)]
  | (k', v') :: rest, k, v =>
    if k = k' then (k, v) :: rest
    else if k < k' then (k, v) :: (k', v') :: rest
    else (k', v') :: insertSortedQ rest k v

/-- `SortedDict` assignment for `Nat` keys (the `old_mempools` cache,
keyed by height ascending). -/
def insertSortedN {α : Type} : List (Nat × α) → Nat → α → List (Nat × α)
  | [], k, v => [(k, v)]
  | (k', v') :: rest, k, v =>
    if k = k' then (k, v) :: rest
    else if k < k' then (k, v) :: (k', v') :: rest
    else (k', v') :: insertSortedN rest k v

/-- The per-tip `Pool` of types/pool.py.  `sorted_spends` maps
`fee_per_cost` to the bucket `Dict[name, MempoolItem]`, ascending by
key; `tip_height` is the `header_block.height` field, the only header
field the modelled paths read. -/
structure Pool where
  tip_height : Nat
  spends : List (Nat × MempoolItem)
  sorted_spends : List (ℚ × List (Nat × MempoolItem))
  additions : List (Nat × MempoolItem)
  removals : List (Nat × MempoolItem)
  size : Nat
deriving DecidableEq, Repr

/-- `Pool.at_full_capacity` (types/pool.py):
`len(self.spends.keys()) >= self.size`. -/
def Pool.at_full_capacity (p : Pool) : Bool :=
  p.size ≤ p.spends.length

/-- `Mempool.add_to_potential_tx_set` (mempool.py lines 232-237): record
the bundle under its name, then evict oldest-first while over the cache
bound of 300.  (`self.potential_txs.keys()[0]` subscripts a view and
would raise `TypeError` whenever the loop body runs; the intended FIFO
eviction is modelled.)  The bundle is represented by its name. -/
def add_to_potential_tx_set (potential_txs : List (Nat × Nat))
    (cache_size : Nat) (bundle_name : Nat) : List (Nat × Nat) :=
  let p := insertA potential_txs bundle_name bundle_name
  p.drop (p.length - cache_size)

/- ## The runtime pool and the conflict-replacement path.

`sorted_spends` has exactly one writer in types/pool.py: line 62,
`self.sorted_spends[item.fee_per_cost] = item`, which stores the BARE
`MempoolItem`.  Every reader, however, expects a `Dict[name, item]`
bucket: line 49 subscript-deletes the stored value, line 51 takes
`len(dic.values)`, line 58 subscripts `val.values()`.  So on a pool the
program itself populated, `remove_spend` reaches line 49 with a bare
`MempoolItem` and raises `TypeError` (after the deletions of lines
46-48 have already mutated the indices), and the capacity eviction of
`add_to_pool` raises `AttributeError` at line 58.  The runtime model
below carries the bare items and these outcomes. -/

/-- The exceptions the runtime pool paths raise. -/
inductive PyError where
  | TypeError
  | AttributeError
  | IndexError
deriving DecidableEq, Repr

/-- The per-tip pool as the running program actually populates it:
identical to `Pool` except that `sorted_spends` maps `fee_per_cost` to
the bare `MempoolItem` stored by types/pool.py line 62. -/
structure PoolRun where
  tip_height : Nat
  spends : List (Nat × MempoolItem)
  sorted_spends : List (ℚ × MempoolItem)
  additions : List (Nat × MempoolItem)
  removals : List (Nat × MempoolItem)
  size : Nat
deriving DecidableEq, Repr

/-- `Pool.at_full_capacity` on the runtime pool. -/
def PoolRun.at_full_capacity (p : PoolRun) : Bool :=
  p.size ≤ p.spends.length

/-- `Pool.remove_spend` (types/pool.py lines 40-52) on the runtime pool.
Lines 41-48 delete the item's coins from `removals`/`additions` and the
item from `spends`; line 49 `del self.sorted_spends[item.fee_per_cost][
item.name]` then subscript-deletes the bare `MempoolItem` stored at
that key — `MempoolItem` supports no item deletion, so the statement
raises `TypeError`.  (The modelled callers only remove pooled items, so
the fee key is present; line 62 put the bare item there.)  The
mutations of lines 41-48 have already happened when the raise occurs,
so they are kept in the returned pool. -/
def PoolRun.remove_spend (p : PoolRun) (item : MempoolItem) :
    PyError × PoolRun :=
  let removals2 := item.bundle_removals.foldl (fun m c => eraseA m c.name) p.removals
  let additions2 := item.bundle_additions.foldl (fun m c => eraseA m c.name) p.additions
  let spends2 := eraseA p.spends item.name
  (.TypeError,
   { p with removals := removals2, additions := additions2, spends := spends2 })

/-- `Pool.add_to_pool` (types/pool.py lines 54-66) on the runtime pool.
At capacity, line 57 peeks the lowest bucket — the bare item of line 62
— and line 58 calls `.values()` on it: `MempoolItem` has no such
attribute, `AttributeError` (on an empty `SortedDict`, `peekitem`
itself raises `IndexError`).  Below capacity, lines 60-66 all succeed,
line 62 storing the bare item. -/
def PoolRun.add_to_pool (p : PoolRun) (item : MempoolItem) (additions : List Coin)
    (removals_dic : List (Nat × Coin)) : Option PyError × PoolRun :=
  if p.at_full_capacity then
    match p.sorted_spends with
    | [] => (some .IndexError, p)
    | _ :: _ => (some .AttributeError, p)
  else
    (none,
     { p with
       spends := insertA p.spends item.name item,
       sorted_spends := insertSortedQ p.sorted_spends item.fee_per_cost item,
       additions := additions.foldl (fun m c => insertA m c.name item) p.additions,
       removals := removals_dic.foldl (fun m kc => insertA m kc.1 item) p.removals })

/-- The deduplicated conflict set of mempool.py lines 135-139:

    for conflicting in conflicts:
        sb = pool.removals[conflicting.name()]
        conflicting_pool_items[sb.name] = sb

`check_removals` only reports coins present in `pool.removals`, so the
lookup cannot miss; a miss is modelled as a skip. -/
def conflicting_items_run (pool : PoolRun) (conflicts : List Coin) :
    List (Nat × MempoolItem) :=
  conflicts.foldl
    (fun m c =>
      match lookupA pool.removals c.name with
      | some sb => insertA m sb.name sb
      | none => m)
    []

/-- The eviction loop of mempool.py lines 181-184,
`for item in conflicting_pool_items.values(): pool.remove_spend(item)`:
the first `remove_spend` raises, aborting the loop with the partially
mutated pool. -/
def evict_all : List (Nat × MempoolItem) → PoolRun →
    Except (PyError × PoolRun) PoolRun
  | [], p => .ok p
  | pr :: _, p => .error (p.remove_spend pr.2)

/-- The `MEMPOOL_CONFLICT` arm of `add_spendbundle` (mempool.py lines
134-151 together with the eviction/insertion of lines 180-187), reached
when `check_removals` returned `Err.MEMPOOL_CONFLICT` with the given
conflict list, over the runtime pool.  The per-removal
puzzle/condition/signature checks of lines 153-178, modelled
separately, are assumed passed.  `.ok (admitted, pool, potential_txs,
recorded_error)` is a normal return; `.error (e, pool)` is an
uncaught exception escaping `add_spendbundle` with the pool left as
mutated so far. -/
def process_mempool_conflicts_run (pool : PoolRun)
    (potential_txs : List (Nat × Nat)) (conflicts : List Coin)
    (new_item : MempoolItem) :
    Except (PyError × PoolRun) (Bool × PoolRun × List (Nat × Nat) × Option Err) :=
  let conflict_set := conflicting_items_run pool conflicts
  if conflict_set.any (fun pr => new_item.fee_per_cost ≤ pr.2.fee_per_cost) then
    .ok (false, pool, add_to_potential_tx_set potential_txs 300 new_item.name,
      some .MEMPOOL_CONFLICT)
  else
    match evict_all conflict_set pool with
    | .error ep => .error ep
    | .ok pool1 =>
      match pool1.add_to_pool new_item new_item.bundle_additions
          (new_item.bundle_removals.map (fun c => (c.name, c))) with
      | (some e, p2) => .error (e, p2)
      | (none, pool2) => .ok (true, pool2, potential_txs, none)

/-- Decidable equality of `Except` results (used to evaluate the
runtime conflict path on concrete inputs). -/
instance {ε α : Type} [DecidableEq ε] [DecidableEq α] :
    DecidableEq (Except ε α) := fun a b =>
  match a, b with
  | .error e1, .error e2 =>
    if h : e1 = e2 then isTrue (by rw [h])
    else isFalse (fun hh => h (by injection hh))
  | .error _, .ok _ => isFalse (fun hh => Except.noConfusion hh)
  | .ok _, .error _ => isFalse (fun hh => Except.noConfusion hh)
  | .ok x, .ok y =>
    if h : x = y then isTrue (by rw [h])
    else isFalse (fun hh => h (by injection hh))

/- ## Block assembly from the mempool (`create_bundle_for_tip`). -/

/-- The inner loop of `create_bundle_for_tip` (mempool.py lines 59-64)
over one fee bucket: take items while they fit in the cost budget of
6000 (`BLOCK_COST_MAX` in the sampled parameters); `break` abandons only
the rest of this bucket.  (The source iterates `dic.values` without
calling it, which would raise `TypeError`; the intended iteration over
the bucket's items is modelled.)  Returns the final cost sum and the
names of the selected bundles. -/
def select_bucket : Nat → List (Nat × MempoolItem) → Nat × List Nat
  | cost_sum, [] => (cost_sum, [])
  | cost_sum, (_, item) :: rest =>
    if item.cost + cost_sum ≤ 6000 then
      let (cs2, sel) := select_bucket (cost_sum + item.cost) rest
      (cs2, item.name :: sel)
    else
      (cost_sum, [])

/-- The outer loop of `create_bundle_for_tip` (mempool.py line 58):
`for dic in pool.sorted_spends.values()` iterates the buckets in
ascending key order (that is how `SortedDict` iterates), and after an
inner `break` the walk continues with the next bucket. -/
def select_buckets : Nat → List (ℚ × List (Nat × MempoolItem)) → List Nat
  | _, [] => []
  | cost_sum, (_, dic) :: rest =>
    let (cs2, sel) := select_bucket cost_sum dic
    sel ++ select_buckets cs2 rest

/-- `create_bundle_for_tip` (mempool.py lines 50-69).  The aggregated
`SpendBundle` is represented by the list of selected bundle names (the
BLS aggregation itself is the external primitive). -/
def create_bundle_for_tip (mempools : List (Nat × Pool)) (tip_hash : Nat) :
    Option (List Nat) :=
  match lookupA mempools tip_hash with
  | none => none
  | some pool => some (select_buckets 0 pool.sorted_spends)

/-- The selection the spec's words describe for `create_bundle_for_tip`:
walk items in DESCENDING `fee_per_cost` order and stop the whole walk at
the first item with `cost_sum + item.cost > BLOCK_COST_MAX`. -/
def select_descending : Nat → List MempoolItem → List Nat
  | _, [] => []
  | cost_sum, item :: rest =>
    if cost_sum + item.cost ≤ 6000 then
      item.name :: select_descending (cost_sum + item.cost) rest
    else
      []

/-- The pool's items flattened in descending fee-density order. -/
def descending_items (pool : Pool) : List MempoolItem :=
  pool.sorted_spends.reverse.flatMap (fun bucket => bucket.2.map Prod.snd)

/-- `create_bundle_for_tip` as the spec's words state it (descending
walk with a global stop). -/
def create_bundle_for_tip_spec (mempools : List (Nat × Pool)) (tip_hash : Nat) :
    Option (List Nat) :=
  match lookupA mempools tip_hash with
  | none => none
  | some pool => some (select_descending 0 (descending_items pool))

/- ## The old-mempool cache (`add_to_old_mempool_cache`). -/

/-- `Mempool.add_to_old_mempool_cache` (mempool.py lines 306-325).
`old_mempools` is the `SortedDict[height, Dict[name, MempoolItem]]`.
The trailing loop

    while len(dic_for_height) > 10:
        keys = dic_for_height.keys()
        lowest_h = keys[0]
        dic_for_height.pop(lowest_h)

measures and pops from the per-height dict `dic_for_height`, not from
`old_mempools` (and `keys[0]` subscripts a `dict_keys` view, a
`TypeError`, whenever the body runs; the intended pop of the first key
is modelled). -/
def add_to_old_mempool_cache
    (old_mempools : List (Nat × List (Nat × MempoolItem)))
    (items : List MempoolItem) (header_height : Nat) :
    List (Nat × List (Nat × MempoolItem)) :=
  let dic := (lookupA old_mempools header_height).getD []
  let dic1 := items.foldl
    (fun d it => if memA d it.name then d else d ++ [(it.name, it)]) dic
  let dic2 := dic1.drop (dic1.length - 10)
  insertSortedN old_mempools header_height dic2

/- ## Removal checking (blockchain.py `validate_transactions` lines
1057-1079, mempool.py `check_removals` lines 193-230). -/

/-- The removal loop of `validate_transactions` (blockchain.py lines
1057-1079).  `store` abstracts `unspent_store.get_unspent(·,
prev_header)`; `additions_dic` maps names of coins created in this block
to the coins; `acc` is the `removal_unspents` dict built so far.
A removal created in the same block is *ephemeral* and synthesised as
`Unspent(rem_coin, block.height, 0, 0, 0)` without consulting the store;
otherwise the store record must exist, be unspent, and — when it is a
coinbase — be older than the freeze period. -/
def validate_removals_block (store : Nat → Option Unspent)
    (additions_dic : List (Nat × Coin)) (coinbase_freeze block_height : Nat) :
    List Nat → List (Nat × Unspent) → Except Err (List (Nat × Unspent))
  | [], acc => .ok acc
  | rem :: rest, acc =>
    match lookupA additions_dic rem with
    | some rem_coin =>
      let new_unspent : Unspent := ⟨rem_coin, block_height, 0, 0, 0⟩
      validate_removals_block store additions_dic coinbase_freeze block_height
        rest (insertA acc new_unspent.name new_unspent)
    | none =>
      match store rem with
      | some unspent =>
        if unspent.spent == 1 then .error .DOUBLE_SPEND
        else if unspent.coinbase == 1
            && decide (block_height < unspent.confirmed_block_index + coinbase_freeze) then
          .error .COINBASE_NOT_YET_SPENDABLE
        else
          validate_removals_block store additions_dic coinbase_freeze block_height
            rest (insertA acc unspent.name unspent)
      | none => .error .UNKNOWN_UNSPENT

/-- `Mempool.check_removals` (mempool.py lines 193-230).  `store`
abstracts `unspent_store.get_unspent(·, mempool.header_block)`;
`pool_removal_names` is the key set of `mempool.removals`; `tip_height`
is `mempool.header_block.height`.  The recursion carries the
`removals_counter` key set, the `unspents` dict and the `conflicts`
list.  The ephemeral constructor call at line 213 passes four positional
arguments `Unspent(removal, height + 1, 0, 0)`; the omitted
`coinbase` flag is its default `0` (spec: `coinbase=false`). -/
def mempool_check_removals (store : Nat → Option Unspent)
    (pool_removal_names : List Nat) (tip_height : Nat) (additions : List Coin) :
    List Coin → List Nat → List (Nat × Unspent) → List Coin →
    Option Err × List (Nat × Unspent) × Option (List Coin)
  | [], _, unspents, conflicts =>
    if 0 < conflicts.length then (some .MEMPOOL_CONFLICT, unspents, some conflicts)
    else (none, unspents, none)
  | removal :: rest, counter, unspents, conflicts =>
    if counter.contains removal.name then
      (some .DOUBLE_SPEND, [], none)
    else
      let counter2 := removal.name :: counter
      if additions.contains removal then
        if memA unspents removal.name then (some .DOUBLE_SPEND, [], none)
        else
          mempool_check_removals store pool_removal_names tip_height additions
            rest counter2
            (insertA unspents removal.name ⟨removal, tip_height + 1, 0, 0, 0⟩)
            conflicts
      else
        match store removal.name with
        | none => (some .UNKNOWN_UNSPENT, [], none)
        | some unspent =>
          if unspent.spent == 1 then (some .DOUBLE_SPEND, [], none)
          else
            let conflicts2 :=
              if pool_removal_names.contains removal.name then conflicts ++ [removal]
              else conflicts
            mempool_check_removals store pool_removal_names tip_height additions
              rest counter2 (insertA unspents unspent.coin.name unspent) conflicts2

/- ## Theorems. -/

/-- Claim C2: at a retarget boundary the value `get_next_difficulty`
returns — the clamp of lines 331-341 applied to the windowed quotient —
lies in the interval `[max 1 (Tc / DIFFICULTY_FACTOR),
DIFFICULTY_FACTOR * Tc]`, for every quotient value; in particular it is
at least 1, so successive difficulties differ by at most a factor of
`DIFFICULTY_FACTOR` (with the integer-division lower bound) and stay
positive.  `Tc ≥ 1` is the inductively maintained positivity of the
current difficulty and `DIFFICULTY_FACTOR ≥ 1` holds for the consensus
parameter (3 in the sampled configuration). -/
theorem get_next_difficulty_clamp_bounds (F Tc new_difficulty : Nat)
    (hTc : 1 ≤ Tc) (hF : 1 ≤ F) :
    max 1 (Tc / F) ≤ get_next_difficulty_clamp F Tc new_difficulty ∧
    get_next_difficulty_clamp F Tc new_difficulty ≤ F * Tc ∧
    1 ≤ get_next_difficulty_clamp F Tc new_difficulty := by
  have hdiv : Tc / F ≤ Tc := Nat.div_le_self Tc F
  have hmul : 1 * Tc ≤ F * Tc := Nat.mul_le_mul_right Tc hF
  rw [one_mul] at hmul
  unfold get_next_difficulty_clamp
  by_cases h : Tc ≤ new_difficulty
  · simp only [if_pos h]
    omega
  · simp only [if_neg h]
    omega

/-- Witness for C2: the sampled parameters `DIFFICULTY_FACTOR = 3`, a
current difficulty of 5 and a windowed quotient of 100. -/
theorem get_next_difficulty_clamp_bounds_witness :
    1 ≤ (5 : Nat) ∧ 1 ≤ (3 : Nat) ∧
    (max 1 (5 / 3) ≤ get_next_difficulty_clamp 3 5 100 ∧
     get_next_difficulty_clamp 3 5 100 ≤ 3 * 5 ∧
     1 ≤ get_next_difficulty_clamp 3 5 100) :=
  ⟨by decide, by decide,
   get_next_difficulty_clamp_bounds 3 5 100 (by decide) (by decide)⟩

/-- Claim C3 fails on the code: with `IPS_FACTOR = 3`, `prev_ips = 1`
and epoch samples `iters1 = 0, iters2 = 1000, t1 = 0, t2 = 10` (so
`new_ips = 100`), `get_next_ips` returns 100, which exceeds
`prev_ips * IPS_FACTOR = 3`: line 438 clamps by `IPS_FACTOR * new_ips`
instead of `IPS_FACTOR * prev_ips`, so the upper clamp never binds,
contradicting the claim, the spec and the code's own comment `Only
change by a max factor`. -/
theorem get_next_ips_retarget_exceeds_bound :
    get_next_ips_retarget 3 1 0 1000 0 10 = 100 ∧ 3 * 1 < 100 := by
  exact ⟨by decide, by decide⟩

/-- Claim C1: `receive_block` tests, in order, presence of the header
(`ALREADY_HAVE_BLOCK`), connectivity of a non-genesis block
(`DISCONNECTED_BLOCK`), and validation (`INVALID_BLOCK`), and in each
of the three cases it returns with the chain state — headers,
height_to_hash, tips, lca_block — exactly as it was. -/
theorem receive_block_failure_paths (K fuel : Nat)
    (validate : ChainState → SmallHeaderBlock → Bool → Bool)
    (s : ChainState) (b : SmallHeaderBlock) :
    (memA s.headers b.header_hash = true →
      receive_block K fuel validate s b = (.ALREADY_HAVE_BLOCK, s)) ∧
    (memA s.headers b.header_hash = false →
      memA s.headers b.prev_header_hash = false →
      (b.height == 0 && s.tips.isEmpty) = false →
      receive_block K fuel validate s b = (.DISCONNECTED_BLOCK, s)) ∧
    (memA s.headers b.header_hash = false →
      (!(memA s.headers b.prev_header_hash) && !(b.height == 0 && s.tips.isEmpty)) = false →
      validate s b (b.height == 0 && s.tips.isEmpty) = false →
      receive_block K fuel validate s b = (.INVALID_BLOCK, s)) := by
  refine ⟨?_, ?_, ?_⟩
  · intro h1
    simp [receive_block, h1]
  · intro h1 h2 h3
    simp [receive_block, h1, h2, h3]
  · intro h1 h2 h3
    simp [receive_block, h1, h2, h3]
    intro hp
    rw [hp] at h2
    simpa using h2

/-- Witness for C1: a one-tip chain; the block itself re-sent, a block
with an unknown parent, and a connected block that fails validation. -/
theorem receive_block_failure_paths_witness :
    receive_block 3 10 (fun _ _ _ => true)
      ⟨[(7, ⟨0, 5, 0, 0, 7, 0, 0, 0⟩)], [], [⟨0, 5, 0, 0, 7, 0, 0, 0⟩], none⟩
      ⟨0, 5, 0, 0, 7, 0, 0, 0⟩
      = (.ALREADY_HAVE_BLOCK,
         ⟨[(7, ⟨0, 5, 0, 0, 7, 0, 0, 0⟩)], [], [⟨0, 5, 0, 0, 7, 0, 0, 0⟩], none⟩) ∧
    receive_block 3 10 (fun _ _ _ => true)
      ⟨[(7, ⟨0, 5, 0, 0, 7, 0, 0, 0⟩)], [], [⟨0, 5, 0, 0, 7, 0, 0, 0⟩], none⟩
      ⟨1, 9, 0, 99, 8, 0, 0, 0⟩
      = (.DISCONNECTED_BLOCK,
         ⟨[(7, ⟨0, 5, 0, 0, 7, 0, 0, 0⟩)], [], [⟨0, 5, 0, 0, 7, 0, 0, 0⟩], none⟩) ∧
    receive_block 3 10 (fun _ _ _ => false)
      ⟨[(7, ⟨0, 5, 0, 0, 7, 0, 0, 0⟩)], [], [⟨0, 5, 0, 0, 7, 0, 0, 0⟩], none⟩
      ⟨1, 9, 0, 7, 8, 0, 0, 0⟩
      = (.INVALID_BLOCK,
         ⟨[(7, ⟨0, 5, 0, 0, 7, 0, 0, 0⟩)], [], [⟨0, 5, 0, 0, 7, 0, 0, 0⟩], none⟩) :=
  ⟨(receive_block_failure_paths 3 10 (fun _ _ _ => true)
      ⟨[(7, ⟨0, 5, 0, 0, 7, 0, 0, 0⟩)], [], [⟨0, 5, 0, 0, 7, 0, 0, 0⟩], none⟩
      ⟨0, 5, 0, 0, 7, 0, 0, 0⟩).1 (by decide),
   (receive_block_failure_paths 3 10 (fun _ _ _ => true)
      ⟨[(7, ⟨0, 5, 0, 0, 7, 0, 0, 0⟩)], [], [⟨0, 5, 0, 0, 7, 0, 0, 0⟩], none⟩
      ⟨1, 9, 0, 99, 8, 0, 0, 0⟩).2.1 (by decide) (by decide) (by decide),
   (receive_block_failure_paths 3 10 (fun _ _ _ => false)
      ⟨[(7, ⟨0, 5, 0, 0, 7, 0, 0, 0⟩)], [], [⟨0, 5, 0, 0, 7, 0, 0, 0⟩], none⟩
      ⟨1, 9, 0, 7, 8, 0, 0, 0⟩).2.2 (by decide) (by decide) rfl⟩

/-- Claim C10: `receive_block` line 455 sets
`genesis = (height == 0 and not tips)`, so once any tip exists a
height-0 block whose parent is unknown is DISCONNECTED rather than
validated under the genesis rules. -/
theorem receive_block_genesis_needs_empty_tips (K fuel : Nat)
    (validate : ChainState → SmallHeaderBlock → Bool → Bool)
    (s : ChainState) (b : SmallHeaderBlock)
    (htips : s.tips.isEmpty = false) (hh : b.height = 0)
    (h1 : memA s.headers b.header_hash = false)
    (h2 : memA s.headers b.prev_header_hash = false) :
    receive_block K fuel validate s b = (.DISCONNECTED_BLOCK, s) := by
  have hg : (b.height == 0 && s.tips.isEmpty) = false := by
    simp [hh, htips]
  simp [receive_block, h1, h2, hg]

/-- Witness for C10: a second height-0 block with an unknown parent,
arriving while one tip exists, is DISCONNECTED even though validation
would accept anything. -/
theorem receive_block_genesis_needs_empty_tips_witness :
    receive_block 3 10 (fun _ _ _ => true)
      ⟨[(7, ⟨0, 5, 0, 0, 7, 0, 0, 0⟩)], [], [⟨0, 5, 0, 0, 7, 0, 0, 0⟩], none⟩
      ⟨0, 9, 0, 99, 8, 0, 0, 0⟩
      = (.DISCONNECTED_BLOCK,
         ⟨[(7, ⟨0, 5, 0, 0, 7, 0, 0, 0⟩)], [], [⟨0, 5, 0, 0, 7, 0, 0, 0⟩], none⟩) :=
  receive_block_genesis_needs_empty_tips 3 10 (fun _ _ _ => true)
    ⟨[(7, ⟨0, 5, 0, 0, 7, 0, 0, 0⟩)], [], [⟨0, 5, 0, 0, 7, 0, 0, 0⟩], none⟩
    ⟨0, 9, 0, 99, 8, 0, 0, 0⟩ (by decide) rfl (by decide) (by decide)

/-- Claim C5: in both block validation (`validate_transactions`) and
mempool admission (`check_removals`), a removal that also appears as an
addition of the same block / spend bundle is checked against a
synthesised unspent record — confirmed index `height + 1` (for the
block: `block.height = prev_height + 1`, the height linkage enforced by
unfinished-validation step 11; for the mempool: `tip_height + 1`) with
`spent = 0` and `coinbase = 0` — without consulting the unspent store;
a removal that is neither ephemeral nor in the store fails with
`UNKNOWN_UNSPENT`, and one already marked spent fails with
`DOUBLE_SPEND`. -/
theorem transaction_removal_classification :
    (∀ (store : Nat → Option Unspent) (additions_dic : List (Nat × Coin))
       (freeze prev_height rem : Nat) (rest : List Nat)
       (acc : List (Nat × Unspent)) (c : Coin),
      lookupA additions_dic rem = some c →
      validate_removals_block store additions_dic freeze (prev_height + 1)
          (rem :: rest) acc =
        validate_removals_block store additions_dic freeze (prev_height + 1)
          rest (insertA acc c.name ⟨c, prev_height + 1, 0, 0, 0⟩)) ∧
    (∀ (store : Nat → Option Unspent) (additions_dic : List (Nat × Coin))
       (freeze block_height rem : Nat) (rest : List Nat)
       (acc : List (Nat × Unspent)),
      lookupA additions_dic rem = none → store rem = none →
      validate_removals_block store additions_dic freeze block_height
          (rem :: rest) acc = .error .UNKNOWN_UNSPENT) ∧
    (∀ (store : Nat → Option Unspent) (additions_dic : List (Nat × Coin))
       (freeze block_height rem : Nat) (rest : List Nat)
       (acc : List (Nat × Unspent)) (u : Unspent),
      lookupA additions_dic rem = none → store rem = some u → u.spent = 1 →
      validate_removals_block store additions_dic freeze block_height
          (rem :: rest) acc = .error .DOUBLE_SPEND) ∧
    (∀ (store : Nat → Option Unspent) (pool_removal_names : List Nat)
       (tip_height : Nat) (additions : List Coin) (removal : Coin)
       (crest : List Coin) (counter : List Nat)
       (unspents : List (Nat × Unspent)) (conflicts : List Coin),
      counter.contains removal.name = false →
      additions.contains removal = true →
      memA unspents removal.name = false →
      mempool_check_removals store pool_removal_names tip_height additions
          (removal :: crest) counter unspents conflicts =
        mempool_check_removals store pool_removal_names tip_height additions
          crest (removal.name :: counter)
          (insertA unspents removal.name ⟨removal, tip_height + 1, 0, 0, 0⟩)
          conflicts) ∧
    (∀ (store : Nat → Option Unspent) (pool_removal_names : List Nat)
       (tip_height : Nat) (additions : List Coin) (removal : Coin)
       (crest : List Coin) (counter : List Nat)
       (unspents : List (Nat × Unspent)) (conflicts : List Coin),
      counter.contains removal.name = false →
      additions.contains removal = false →
      store removal.name = none →
      mempool_check_removals store pool_removal_names tip_height additions
          (removal :: crest) counter unspents conflicts =
        (some .UNKNOWN_UNSPENT, [], none)) ∧
    (∀ (store : Nat → Option Unspent) (pool_removal_names : List Nat)
       (tip_height : Nat) (additions : List Coin) (removal : Coin)
       (crest : List Coin) (counter : List Nat)
       (unspents : List (Nat × Unspent)) (conflicts : List Coin) (u : Unspent),
      counter.contains removal.name = false →
      additions.contains removal = false →
      store removal.name = some u → u.spent = 1 →
      mempool_check_removals store pool_removal_names tip_height additions
          (removal :: crest) counter unspents conflicts =
        (some .DOUBLE_SPEND, [], none)) := by
  refine ⟨?_, ?_, ?_, ?_, ?_, ?_⟩
  · intro store adic freeze ph rem rest acc c h
    simp [validate_removals_block, h, Unspent.name]
  · intro store adic freeze bh rem rest acc h1 h2
    simp [validate_removals_block, h1, h2]
  · intro store adic freeze bh rem rest acc u h1 h2 h3
    simp [validate_removals_block, h1, h2, h3]
  · intro store prn th adds removal crest counter unspents conflicts h1 h2 h3
    have h1a : removal.name ∉ counter := by simpa using h1
    have h2a : removal ∈ adds := by simpa using h2
    simp [mempool_check_removals, h1a, h2a, h3]
  · intro store prn th adds removal crest counter unspents conflicts h1 h2 h3
    have h1a : removal.name ∉ counter := by simpa using h1
    have h2a : removal ∉ adds := by simpa using h2
    simp [mempool_check_removals, h1a, h2a, h3]
  · intro store prn th adds removal crest counter unspents conflicts u h1 h2 h3 h4
    have h1a : removal.name ∉ counter := by simpa using h1
    have h2a : removal ∉ adds := by simpa using h2
    simp [mempool_check_removals, h1a, h2a, h3, h4]

/-- Witness for C5: an ephemeral removal in block validation (block at
height 5 = prev 4 + 1) and an unknown removal in mempool admission. -/
theorem transaction_removal_classification_witness :
    validate_removals_block (fun _ => none)
        [((⟨1, 2, 3⟩ : Coin).name, (⟨1, 2, 3⟩ : Coin))] 200 (4 + 1)
        [(⟨1, 2, 3⟩ : Coin).name] [] =
      validate_removals_block (fun _ => none)
        [((⟨1, 2, 3⟩ : Coin).name, (⟨1, 2, 3⟩ : Coin))] 200 (4 + 1) []
        (insertA [] (⟨1, 2, 3⟩ : Coin).name ⟨⟨1, 2, 3⟩, 4 + 1, 0, 0, 0⟩) ∧
    mempool_check_removals (fun _ => none) [] 4 [] [⟨1, 2, 3⟩] [] [] [] =
      (some .UNKNOWN_UNSPENT, [], none) :=
  ⟨transaction_removal_classification.1 (fun _ => none)
      [((⟨1, 2, 3⟩ : Coin).name, (⟨1, 2, 3⟩ : Coin))] 200 4 (⟨1, 2, 3⟩ : Coin).name
      [] [] ⟨1, 2, 3⟩ (by decide),
   transaction_removal_classification.2.2.2.2.1 (fun _ => none) [] 4 [] ⟨1, 2, 3⟩
      [] [] [] [] (by decide) (by decide) rfl⟩

/-- Claim C7 fails on the code: for a pool holding two bundles of cost
4000, one at `fee_per_cost = 1` (name 1) and one at `fee_per_cost = 2`
(name 2), with `BLOCK_COST_MAX = 6000`, `create_bundle_for_tip` selects
the LOW-fee bundle: `SortedDict.values()` iterates buckets in ascending
key order, and the inner `break` only abandons the current bucket.  The
descending walk the claim (and the spec) describe selects the high-fee
bundle instead. -/
theorem create_bundle_for_tip_picks_low_fee_first :
    create_bundle_for_tip
      [(42, ⟨5, [(1, ⟨1, 1, 10, 4000, [], []⟩), (2, ⟨2, 2, 20, 4000, [], []⟩)],
             [((1 : ℚ), [(1, ⟨1, 1, 10, 4000, [], []⟩)]),
              ((2 : ℚ), [(2, ⟨2, 2, 20, 4000, [], []⟩)])],
             [], [], 10⟩)] 42 = some [1] ∧
    create_bundle_for_tip_spec
      [(42, ⟨5, [(1, ⟨1, 1, 10, 4000, [], []⟩), (2, ⟨2, 2, 20, 4000, [], []⟩)],
             [((1 : ℚ), [(1, ⟨1, 1, 10, 4000, [], []⟩)]),
              ((2 : ℚ), [(2, ⟨2, 2, 20, 4000, [], []⟩)])],
             [], [], 10⟩)] 42 = some [2] := by
  exact ⟨by decide, by decide⟩

/-- Claim C9 fails on the code: starting from an old-mempool cache
holding one item at each of the heights 1..10, adding an evicted item
at height 11 leaves a cache with ELEVEN heights, the oldest (height 1)
still present: the trim loop of mempool.py lines 322-325 measures and
pops the per-height item dict, never the set of heights, contradicting
the claim and the code's own comment `Keep only last 10 heights in
cache`. -/
theorem add_to_old_mempool_cache_keeps_all_heights :
    (add_to_old_mempool_cache
      [(1, [(101, ⟨101, 1, 1, 1, [], []⟩)]), (2, [(102, ⟨102, 1, 1, 1, [], []⟩)]),
       (3, [(103, ⟨103, 1, 1, 1, [], []⟩)]), (4, [(104, ⟨104, 1, 1, 1, [], []⟩)]),
       (5, [(105, ⟨105, 1, 1, 1, [], []⟩)]), (6, [(106, ⟨106, 1, 1, 1, [], []⟩)]),
       (7, [(107, ⟨107, 1, 1, 1, [], []⟩)]), (8, [(108, ⟨108, 1, 1, 1, [], []⟩)]),
       (9, [(109, ⟨109, 1, 1, 1, [], []⟩)]), (10, [(110, ⟨110, 1, 1, 1, [], []⟩)])]
      [⟨111, 1, 1, 1, [], []⟩] 11).length = 11 ∧
    memA (add_to_old_mempool_cache
      [(1, [(101, ⟨101, 1, 1, 1, [], []⟩)]), (2, [(102, ⟨102, 1, 1, 1, [], []⟩)]),
       (3, [(103, ⟨103, 1, 1, 1, [], []⟩)]), (4, [(104, ⟨104, 1, 1, 1, [], []⟩)]),
       (5, [(105, ⟨105, 1, 1, 1, [], []⟩)]), (6, [(106, ⟨106, 1, 1, 1, [], []⟩)]),
       (7, [(107, ⟨107, 1, 1, 1, [], []⟩)]), (8, [(108, ⟨108, 1, 1, 1, [], []⟩)]),
       (9, [(109, ⟨109, 1, 1, 1, [], []⟩)]), (10, [(110, ⟨110, 1, 1, 1, [], []⟩)])]
      [⟨111, 1, 1, 1, [], []⟩] 11) 1 = true := by
  exact ⟨by decide, by decide⟩

/- ### Helper lemmas about the tips eviction loop. -/

theorem tips_pop_loop_small (K f : Nat) (l : List SmallHeaderBlock)
    (r : Option SmallHeaderBlock) (h : l.length ≤ K) :
    tips_pop_loop K f l r = (l, r) := by
  cases f with
  | zero => rfl
  | succ f => simp [tips_pop_loop, Nat.not_lt.mpr h]

theorem sort_tips_desc_length (l : List SmallHeaderBlock) :
    (sort_tips_desc l).length = l.length :=
  List.length_insertionSort weight_ge l

theorem tips_pop_loop_step (K f : Nat) (l : List SmallHeaderBlock)
    (r : Option SmallHeaderBlock) (h : l.length = K + 1) :
    tips_pop_loop K (f + 1) l r =
      ((sort_tips_desc l).dropLast, (sort_tips_desc l).getLast?) := by
  have hK : K < l.length := by omega
  have hlen : (sort_tips_desc l).dropLast.length ≤ K := by
    rw [List.length_dropLast, sort_tips_desc_length, h]
    omega
  simp only [tips_pop_loop, if_pos hK]
  exact tips_pop_loop_small K f _ _ hlen

theorem getLast_min_of_sorted :
    ∀ (l : List SmallHeaderBlock), List.Sorted weight_ge l →
      ∀ x, l.getLast? = some x → ∀ y ∈ l, x.weight ≤ y.weight := by
  intro l
  induction l with
  | nil =>
    intro _ x hx
    simp at hx
  | cons a t ih =>
    intro hs x hx y hy
    cases t with
    | nil =>
      simp at hx hy
      subst hx; subst hy
      exact le_refl _
    | cons c t2 =>
      rw [List.getLast?_cons_cons] at hx
      have hxmem : x ∈ c :: t2 := by
        rcases List.getLast?_eq_some_iff.mp hx with ⟨ys, hys⟩
        rw [hys]; simp
      rcases List.mem_cons.mp hy with hya | hyt
      · subst hya
        exact (List.sorted_cons.mp hs).1 x hxmem
      · exact ih hs.of_cons x hx y hyt

theorem new_tip_qualifies_iff (tips : List SmallHeaderBlock) (b : SmallHeaderBlock) :
    new_tip_qualifies tips b = true ↔
      (tips = [] ∨ ∃ m, (tips.map SmallHeaderBlock.weight).min? = some m ∧ m < b.weight) := by
  unfold new_tip_qualifies
  cases h : (tips.map SmallHeaderBlock.weight).min? with
  | none =>
    have htips : tips = [] := by
      have h2 := List.min?_eq_none_iff.mp h
      simpa using h2
    simp [htips]
  | some m =>
    have hne : ¬tips = [] := by
      intro ht
      subst ht
      simp at h
    simp [hne]

/-- Claim C8: with the tip-count invariant `|tips| ≤ K` in force,
`_reconsider_heads` (i) appends the new block exactly when the tip set
is empty or the block's weight strictly exceeds the current minimum tip
weight, (ii) leaves at most `K` tips, (iii) leaves the tips untouched
when the block does not qualify, (iv) only ever removes a tip of
minimal weight among the candidates, and (v) does remove one whenever
the cap would be exceeded. -/
theorem reconsider_heads_tip_cap (K : Nat) (tips : List SmallHeaderBlock)
    (b : SmallHeaderBlock) (hT : tips.length ≤ K) :
    ((reconsider_heads_tips K tips b).1 = true ↔
      (tips = [] ∨ ∃ m, (tips.map SmallHeaderBlock.weight).min? = some m ∧ m < b.weight)) ∧
    (reconsider_heads_tips K tips b).2.1.length ≤ K ∧
    ((reconsider_heads_tips K tips b).1 = false →
      (reconsider_heads_tips K tips b).2.1 = tips) ∧
    (∀ r, (reconsider_heads_tips K tips b).2.2 = some r →
      r ∈ tips ++ [b] ∧ ∀ y ∈ tips ++ [b], r.weight ≤ y.weight) ∧
    ((reconsider_heads_tips K tips b).1 = true → K < tips.length + 1 →
      ∃ r, (reconsider_heads_tips K tips b).2.2 = some r) := by
  by_cases hq : new_tip_qualifies tips b = true
  · have happlen : (tips ++ [b]).length = tips.length + 1 := by simp
    rcases Nat.lt_or_ge tips.length K with hlt | hge
    · have hsmall : (tips ++ [b]).length ≤ K := by omega
      have hres : reconsider_heads_tips K tips b = (true, tips ++ [b], none) := by
        simp [reconsider_heads_tips, hq, tips_pop_loop_small _ _ _ _ hsmall]
      rw [hres]
      refine ⟨?_, ?_, ?_, ?_, ?_⟩
      · exact ⟨fun _ => (new_tip_qualifies_iff tips b).mp hq, fun _ => rfl⟩
      · simpa using hsmall
      · intro h; simp at h
      · intro r hr; simp at hr
      · intro _ hK; omega
    · have hEq : tips.length = K := le_antisymm hT hge
      have hfull : (tips ++ [b]).length = K + 1 := by omega
      have hstep : tips_pop_loop K (tips.length + 1) (tips ++ [b]) none =
          ((sort_tips_desc (tips ++ [b])).dropLast,
           (sort_tips_desc (tips ++ [b])).getLast?) := by
        rw [hEq]
        exact tips_pop_loop_step K K _ none hfull
      have hres : reconsider_heads_tips K tips b =
          (true, (sort_tips_desc (tips ++ [b])).dropLast,
           (sort_tips_desc (tips ++ [b])).getLast?) := by
        simp [reconsider_heads_tips, hq, hstep]
      have hperm := List.perm_insertionSort weight_ge (tips ++ [b])
      have hsortedlen : (sort_tips_desc (tips ++ [b])).length = K + 1 := by
        rw [sort_tips_desc_length, hfull]
      rw [hres]
      refine ⟨?_, ?_, ?_, ?_, ?_⟩
      · exact ⟨fun _ => (new_tip_qualifies_iff tips b).mp hq, fun _ => rfl⟩
      · rw [List.length_dropLast, hsortedlen]
        omega
      · intro h; simp at h
      · intro r hr
        have hrs : r ∈ sort_tips_desc (tips ++ [b]) := by
          rcases List.getLast?_eq_some_iff.mp hr with ⟨ys, hys⟩
          rw [hys]; simp
        refine ⟨hperm.mem_iff.mp hrs, ?_⟩
        intro y hy
        have hys : y ∈ sort_tips_desc (tips ++ [b]) := hperm.mem_iff.mpr hy
        exact getLast_min_of_sorted _
          (List.sorted_insertionSort weight_ge (tips ++ [b])) r hr y hys
      · intro _ _
        cases hL : (sort_tips_desc (tips ++ [b])).getLast? with
        | none =>
          rw [List.getLast?_eq_none_iff] at hL
          rw [hL] at hsortedlen
          simp at hsortedlen
        | some r => exact ⟨r, rfl⟩
  · have hq2 : new_tip_qualifies tips b = false := by
      revert hq
      cases new_tip_qualifies tips b <;> simp
    have hres : reconsider_heads_tips K tips b = (false, tips, none) := by
      simp [reconsider_heads_tips, hq2]
    rw [hres]
    refine ⟨?_, ?_, ?_, ?_, ?_⟩
    · constructor
      · intro h; simp at h
      · intro hcond
        exact absurd ((new_tip_qualifies_iff tips b).mpr hcond) hq
    · simpa using hT
    · intro _; rfl
    · intro r hr; simp at hr
    · intro h; simp at h

/-- Witness for C8: with `K = 1` and one tip of weight 5, a block of
weight 9 is admitted; the loop evicts the weight-5 tip, which is
minimal among both candidates. -/
theorem reconsider_heads_tip_cap_witness :
    (reconsider_heads_tips 1 [⟨0, 5, 0, 0, 7, 0, 0, 0⟩] ⟨1, 9, 0, 7, 8, 0, 0, 0⟩).2.1.length ≤ 1 ∧
    (⟨0, 5, 0, 0, 7, 0, 0, 0⟩ : SmallHeaderBlock).weight ≤
      (⟨1, 9, 0, 7, 8, 0, 0, 0⟩ : SmallHeaderBlock).weight :=
  ⟨(reconsider_heads_tip_cap 1 [⟨0, 5, 0, 0, 7, 0, 0, 0⟩] ⟨1, 9, 0, 7, 8, 0, 0, 0⟩
      (by decide)).2.1,
   ((reconsider_heads_tip_cap 1 [⟨0, 5, 0, 0, 7, 0, 0, 0⟩] ⟨1, 9, 0, 7, 8, 0, 0, 0⟩
      (by decide)).2.2.2.1 ⟨0, 5, 0, 0, 7, 0, 0, 0⟩ (by decide)).2
      ⟨1, 9, 0, 7, 8, 0, 0, 0⟩ (by decide)⟩

/- ### Helper lemmas about dict operations and pool eviction. -/

theorem lookupA_cons {α : Type} (p : Nat × α) (t : List (Nat × α)) (k : Nat) :
    lookupA (p :: t) k = if p.1 == k then some p.2 else lookupA t k := by
  by_cases h : p.1 == k
  · simp [lookupA, List.find?_cons_of_pos, h]
  · simp [lookupA, List.find?_cons_of_neg, h]

theorem lookupA_insertA_self {α : Type} (l : List (Nat × α)) (k : Nat) (v : α) :
    lookupA (insertA l k v) k = some v := by
  unfold insertA
  by_cases hm : (lookupA l k).isSome
  · rw [if_pos hm]
    induction l with
    | nil => simp [lookupA] at hm
    | cons p t ih =>
      rw [List.map_cons, lookupA_cons]
      by_cases hp : p.1 == k
      · simp [hp, lookupA_cons]
      · simp only [hp, if_false, Bool.false_eq_true]
        apply ih
        rw [lookupA_cons, if_neg (by simpa using hp)] at hm
        exact hm
  · rw [if_neg hm]
    induction l with
    | nil => simp [lookupA_cons]
    | cons p t ih =>
      rw [List.cons_append, lookupA_cons]
      by_cases hp : p.1 == k
      · exfalso
        apply hm
        rw [lookupA_cons, if_pos hp]
        simp
      · rw [if_neg (by simpa using hp)]
        apply ih
        rw [lookupA_cons, if_neg (by simpa using hp)] at hm
        exact hm

theorem lookupA_insertA_ne {α : Type} (l : List (Nat × α)) (k : Nat) (v : α)
    (n : Nat) (h : n ≠ k) : lookupA (insertA l k v) n = lookupA l n := by
  unfold insertA
  by_cases hm : (lookupA l k).isSome
  · rw [if_pos hm]
    clear hm
    induction l with
    | nil => simp
    | cons p t ih =>
      rw [List.map_cons, lookupA_cons, lookupA_cons]
      by_cases hp : p.1 == k
      · have hp2 : p.1 = k := by simpa using hp
        rw [if_pos hp]
        have hkn : ((k : Nat) == n) = false := by simp [Ne.symm h]
        have hpn : (p.1 == n) = false := by simp [hp2, Ne.symm h]
        rw [hkn, hpn]
        simpa using ih
      · rw [if_neg hp]
        by_cases hpn : p.1 == n
        · rw [if_pos hpn, if_pos hpn]
        · rw [if_neg hpn, if_neg hpn]
          exact ih
  · rw [if_neg hm]
    clear hm
    induction l with
    | nil =>
      rw [List.nil_append, lookupA_cons]
      have hkn : ((k : Nat) == n) = false := by simp [Ne.symm h]
      rw [hkn]
      simp
    | cons p t ih =>
      rw [List.cons_append, lookupA_cons, lookupA_cons]
      by_cases hpn : p.1 == n
      · rw [if_pos hpn, if_pos hpn]
      · rw [if_neg hpn, if_neg hpn]
        exact ih

theorem lookupA_eraseA_none {α : Type} (l : List (Nat × α)) (k n : Nat)
    (h : lookupA l n = none) : lookupA (eraseA l k) n = none := by
  induction l with
  | nil => rfl
  | cons p t ih =>
    rw [lookupA_cons] at h
    by_cases hpn : p.1 == n
    · rw [if_pos hpn] at h
      simp at h
    · rw [if_neg hpn] at h
      unfold eraseA at *
      rw [List.filter_cons]
      by_cases hpk : p.1 == k
      · have hpk2 : (p.1 == k) = true := hpk
        rw [hpk2]
        simpa using ih h
      · have hpk2 : (p.1 == k) = false := by simpa using hpk
        rw [hpk2]
        simp only [Bool.not_false, if_true]
        rw [lookupA_cons, if_neg hpn]
        exact ih h

theorem lookupA_eraseA_self {α : Type} (l : List (Nat × α)) (k : Nat) :
    lookupA (eraseA l k) k = none := by
  induction l with
  | nil => rfl
  | cons p t ih =>
    unfold eraseA at *
    rw [List.filter_cons]
    by_cases hpk : p.1 == k
    · have hpk2 : (p.1 == k) = true := hpk
      rw [hpk2]
      simpa using ih
    · have hpk2 : (p.1 == k) = false := by simpa using hpk
      rw [hpk2]
      simp only [Bool.not_false, if_true]
      rw [lookupA_cons, if_neg hpk]
      exact ih

theorem insertA_length_le {α : Type} (l : List (Nat × α)) (k : Nat) (v : α) :
    (insertA l k v).length ≤ l.length + 1 := by
  unfold insertA
  split_ifs <;> simp

theorem nat_log2_fuel_le :
    ∀ (fuel n k : Nat), n < 2 ^ (k + 1) → nat_log2_fuel fuel n ≤ k := by
  intro fuel
  induction fuel with
  | zero =>
    intro n k _
    exact Nat.zero_le k
  | succ f ih =>
    intro n k h
    unfold nat_log2_fuel
    by_cases h2 : 2 ≤ n
    · rw [if_pos h2]
      cases k with
      | zero =>
        simp at h
        omega
      | succ k2 =>
        have hhalf : n / 2 < 2 ^ (k2 + 1) := by
          have hpow : 2 ^ (k2 + 1 + 1) = 2 * 2 ^ (k2 + 1) := by ring
          omega
        have := ih (n / 2) k2 hhalf
        omega
    · rw [if_neg h2]
      exact Nat.zero_le k

/-- Counterexample for C4: at `block_reward = 2^53 - 1` (odd, not
divisible by 8) the double product `(reward / 8) * 7` rounds down to
the integer 7881299347898367, so `validate_block`'s check accepts a
coinbase amount with `8 * amount ≠ 7 * reward` — the claim's assertion
that such a block is rejected for every reward value fails on the
program. -/
theorem coinbase_check_accepts_rounded_amount :
    coinbase_amount_check_float 9007199254740991 7881299347898367 = true ∧
    8 * 7881299347898367 ≠ 7 * 9007199254740991 := by
  constructor
  · unfold coinbase_amount_check_float
    rw [decide_eq_true_iff]
    rw [show round53_nat 9007199254740991 = 9007199254740991 from by decide]
    rw [show (7 * 9007199254740991 : Nat) = 63050394783186937 from by norm_num]
    unfold dyadic_fl53
    rw [show round53_nat 63050394783186937 = 63050394783186936 from by decide]
    push_cast
    norm_num
  · decide

/-- Claim C4 as amended: for rewards below `2 ^ 50` — where the double
computation `(reward / 8) * 7` is exact — the coinbase check passes
exactly when `8 * amount = 7 * reward` (so for a reward not divisible
by 8 every integer amount is rejected), and the fee-coin base is
`⌊reward / 8⌋`. -/
theorem validate_block_coinbase_arithmetic_amended (r a : Nat)
    (hr : r < 2 ^ 50) :
    (coinbase_amount_check_float r a = true ↔ 8 * a = 7 * r) ∧
    fee_base_of_reward_float r = r / 8 := by
  have e50 : (2 : Nat) ^ 50 = 1125899906842624 := by norm_num
  have e53 : (2 : Nat) ^ 53 = 9007199254740992 := by norm_num
  have hid : round53_nat r = r := by
    unfold round53_nat
    rw [if_pos (nat_log2_fuel_le 96 r 52 (by omega))]
  have hid7 : round53_nat (7 * r) = 7 * r := by
    unfold round53_nat
    rw [if_pos (nat_log2_fuel_le 96 (7 * r) 52 (by omega))]
  refine ⟨?_, ?_⟩
  · unfold coinbase_amount_check_float dyadic_fl53
    rw [hid, hid7, decide_eq_true_iff]
    rw [div_eq_iff (by norm_num : ((2 : ℚ) ^ 3) ≠ 0)]
    have key : (((7 * r : Nat) : ℚ) = (a : ℚ) * 2 ^ 3) ↔
        ((7 * r : Nat) = (a * 8 : Nat)) := by
      constructor
      · intro h
        exact_mod_cast h
      · intro h
        exact_mod_cast h
    rw [key]
    omega
  · unfold fee_base_of_reward_float
    rw [hid]

/-- Witness for C4 (amended): reward 16 accepts amount 14 (= 7/8 · 16);
reward 9 gives fee base ⌊9/8⌋ = 1. -/
theorem validate_block_coinbase_arithmetic_amended_witness :
    coinbase_amount_check_float 16 14 = true ∧
    fee_base_of_reward_float 9 = 9 / 8 :=
  ⟨(validate_block_coinbase_arithmetic_amended 16 14 (by norm_num)).1.mpr (by decide),
   (validate_block_coinbase_arithmetic_amended 9 0 (by norm_num)).2⟩

/-- Claim C6 fails on the code: submit, against a runtime pool holding
one item `x` (name 100, `fee_per_cost` 10) that spends coin (5,6,7), a
bundle `y` (name 200, `fee_per_cost` 11) spending the same coin.  The
claim requires `x` evicted and `y` admitted; the program instead
reaches `Pool.remove_spend`, whose line 49 subscript-deletes the bare
`MempoolItem` that line 62 stored in `sorted_spends`, and raises
`TypeError` — after the deletions of lines 46-48 already stripped `x`
from `spends` and the coin indices, leaving the pool corrupted and `y`
never admitted.  The rejection half of the claim does hold: an
equal-fee bundle `z` (name 300, `fee_per_cost` 10) is turned away with
`MEMPOOL_CONFLICT`, parked in `potential_txs`, the pool untouched. -/
theorem add_spendbundle_conflict_admission_raises :
    process_mempool_conflicts_run
      ⟨0, [(100, ⟨100, 10, 100, 10, [], [⟨5, 6, 7⟩]⟩)],
       [((10 : ℚ), ⟨100, 10, 100, 10, [], [⟨5, 6, 7⟩]⟩)],
       [], [((⟨5, 6, 7⟩ : Coin).name, ⟨100, 10, 100, 10, [], [⟨5, 6, 7⟩]⟩)], 100⟩
      [] [⟨5, 6, 7⟩] ⟨200, 11, 110, 10, [], [⟨5, 6, 7⟩]⟩ =
      .error (.TypeError,
        ⟨0, [], [((10 : ℚ), ⟨100, 10, 100, 10, [], [⟨5, 6, 7⟩]⟩)], [], [], 100⟩) ∧
    process_mempool_conflicts_run
      ⟨0, [(100, ⟨100, 10, 100, 10, [], [⟨5, 6, 7⟩]⟩)],
       [((10 : ℚ), ⟨100, 10, 100, 10, [], [⟨5, 6, 7⟩]⟩)],
       [], [((⟨5, 6, 7⟩ : Coin).name, ⟨100, 10, 100, 10, [], [⟨5, 6, 7⟩]⟩)], 100⟩
      [] [⟨5, 6, 7⟩] ⟨300, 10, 100, 10, [], [⟨5, 6, 7⟩]⟩ =
      .ok (false,
        ⟨0, [(100, ⟨100, 10, 100, 10, [], [⟨5, 6, 7⟩]⟩)],
         [((10 : ℚ), ⟨100, 10, 100, 10, [], [⟨5, 6, 7⟩]⟩)],
         [], [((⟨5, 6, 7⟩ : Coin).name, ⟨100, 10, 100, 10, [], [⟨5, 6, 7⟩]⟩)], 100⟩,
        [(300, 300)], some .MEMPOOL_CONFLICT) := by
  exact ⟨by decide, by decide⟩
